import Mathlib

/-!
Verification of the uWebSockets WebSocket frame codec (`src/WebSocketProtocol.h`).

The development shallowly embeds the frame parser (`consume`, `consumeMessage`,
`consumeContinuation`), the outbound framer (`formatMessage`, `messageFrameSize`),
the close-payload codec (`parseClosePayload`), the UTF-8 validator (`isValidUtf8`)
and the move-only invocable (`ofats::any_invocable`) as executable Lean functions
over byte lists (`List Nat`, each element a byte value), and proves the frozen
claims about them.

Modelling conventions, stated once:
* Buffers are byte lists; pointer advance is `List.drop`, `unsigned int length`
  is the list length.  The source caps a single `consume` call at `2^32 - 1`
  bytes (`unsigned int length`); the model is total on all lists.
* Machine arithmetic is `Nat` with explicit reductions: `wrap32`/`wrap64` mark
  the points where the source's `uint32_t`/`uint64_t` arithmetic can wrap.
* Reads past the end of a buffer (the source's "imprecise" wide XORs, which are
  absorbed by the `CONSUME_PRE_PADDING`/`CONSUME_POST_PADDING` slack bytes of
  the receive buffer) are modelled with `List.getD _ 0`: the value of those
  padding bytes never reaches a `handleFragment` payload.
* A little-endian host is modelled (`cond_byte_swap` reverses bytes); the
  resulting big-endian reads/writes are host-independent, as in the source.
* The handler capability set (`Impl`) is modelled observationally: calls to
  `handleFragment`/`forceClose` are recorded as events, `handleFragment`
  always returns false (the handler does not tear down the connection),
  `refusePayloadLength` is an arbitrary pure predicate and `setCompressed`
  an arbitrary constant.
* The source's `spill` array keeps stale bytes beyond `spillLength`, and the
  force-close paths leave `spillLength` stale; those bytes are never read
  again (the connection is gone, or the field is overwritten before use), so
  the model normalises: `spill` holds exactly the live spilled bytes and both
  fields are reset when the spill is consumed.
* On a frame whose 64-bit declared length makes `payLength + MESSAGE_HEADER`
  wrap to a value `≤ length`, the source advances `src` by that wrapped amount;
  when the amount is zero the source's header loop never terminates.  The model
  emits a `stuck` marker event at that point instead of diverging.
-/

namespace UWS

/-! ## Machine arithmetic and byte helpers -/

/-- Reduction of `uint32_t` arithmetic. -/
def wrap32 (n : Nat) : Nat := n % 2 ^ 32

/-- Reduction of `uint64_t` arithmetic. -/
def wrap64 (n : Nat) : Nat := n % 2 ^ 64

/-- `protocol::bit_cast<uint16_t>` on a little-endian host: assemble two bytes. -/
def bitCast16 (c : List Nat) : Nat := c.getD 0 0 + 256 * c.getD 1 0

/-- `protocol::bit_cast<uint64_t>` on a little-endian host: assemble eight bytes. -/
def bitCast64 (c : List Nat) : Nat :=
  c.getD 0 0 + 256 * c.getD 1 0 + 256 ^ 2 * c.getD 2 0 + 256 ^ 3 * c.getD 3 0 +
  256 ^ 4 * c.getD 4 0 + 256 ^ 5 * c.getD 5 0 + 256 ^ 6 * c.getD 6 0 + 256 ^ 7 * c.getD 7 0

/-- `protocol::cond_byte_swap<uint16_t>` on a little-endian host: reverse the
two bytes of a 16-bit value. -/
def condByteSwap16 (v : Nat) : Nat := 256 * (v % 256) + v / 256 % 256

/-- `protocol::cond_byte_swap<uint64_t>` on a little-endian host: reverse the
eight bytes of a 64-bit value. -/
def condByteSwap64 (v : Nat) : Nat :=
  256 ^ 7 * (v % 256) + 256 ^ 6 * (v / 256 % 256) + 256 ^ 5 * (v / 256 ^ 2 % 256) +
  256 ^ 4 * (v / 256 ^ 3 % 256) + 256 ^ 3 * (v / 256 ^ 4 % 256) +
  256 ^ 2 * (v / 256 ^ 5 % 256) + 256 * (v / 256 ^ 6 % 256) + v / 256 ^ 7 % 256

/-- UTF-8 bytes of a string constant (used for the static error-message
string views of the source). -/
def strBytes (s : String) : List Nat := s.toUTF8.toList.map (fun b => b.toNat)

/-! ## Error sentinels -/

def ERR_TOO_BIG_MESSAGE : String := "Received too big message"
def ERR_WEBSOCKET_TIMEOUT : String := "WebSocket timed out from inactivity"
def ERR_INVALID_TEXT : String := "Received invalid UTF-8"
def ERR_TOO_BIG_MESSAGE_INFLATION : String := "Received too big message, or other inflation error"
def ERR_INVALID_CLOSE_PAYLOAD : String := "Received invalid close payload"
def ERR_PROTOCOL : String := "Received invalid WebSocket frame"
def ERR_TCP_FIN : String := "Received TCP FIN before WebSocket close frame"

/-! ## Frame header accessors (`WebSocketProtocol` statics) -/

/-- `isFin`: high bit of byte 0. -/
def isFin (frame : List Nat) : Bool := frame.getD 0 0 &&& 128 ≠ 0

/-- `getOpCode`: low four bits of byte 0. -/
def getOpCode (frame : List Nat) : Nat := frame.getD 0 0 &&& 15

/-- `payloadLength`: low seven bits of byte 1. -/
def payloadLength (frame : List Nat) : Nat := frame.getD 1 0 &&& 127

/-- `rsv23`: bits 0x30 of byte 0. -/
def rsv23 (frame : List Nat) : Bool := frame.getD 0 0 &&& 48 ≠ 0

/-- `rsv1`: bit 0x40 of byte 0. -/
def rsv1 (frame : List Nat) : Bool := frame.getD 0 0 &&& 64 ≠ 0

/-! ## Header sizes -/

def SHORT_MESSAGE_HEADER (isServer : Bool) : Nat := if isServer then 6 else 2
def MEDIUM_MESSAGE_HEADER (isServer : Bool) : Nat := if isServer then 8 else 4
def LONG_MESSAGE_HEADER (isServer : Bool) : Nat := if isServer then 14 else 10

/-! ## Unmasking primitives

The source's unmask routines XOR fixed-width blocks.  `UnrolledXor` is the
source's template of the same name (`data[j] ^= mask[j % 4]` for `j < N`);
`xorBlocks w mask n src` XORs `n` consecutive `w`-byte blocks of `src` and
returns the resulting bytes (the in-place store, with its `DESTINATION`
relocation, only determines where the payload lands in the buffer — the
parser always hands `handleFragment` exactly these bytes). -/

def UnrolledXor (N : Nat) (data mask : List Nat) : List Nat :=
  (List.range N).map fun j => data.getD j 0 ^^^ mask.getD (j % mask.length) 0

def xorBlocks (w : Nat) (mask : List Nat) : Nat → List Nat → List Nat
  | 0, _ => []
  | n + 1, src => UnrolledXor w src mask ++ xorBlocks w mask n (src.drop w)

/-- `unmaskImprecise8`: `(length >> 3) + 1` eight-byte blocks XORed with the
replicated 4-byte mask. -/
def unmaskImprecise8 (src mask8 : List Nat) (length : Nat) : List Nat :=
  xorBlocks 8 mask8 (length >>> 3 + 1) src

/-- `unmaskImprecise4`: `(length >> 2) + 1` four-byte blocks XORed with the
4-byte mask. -/
def unmaskImprecise4 (src mask4 : List Nat) (length : Nat) : List Nat :=
  xorBlocks 4 mask4 (length >>> 2 + 1) src

/-- `unmaskImpreciseCopyMask<HEADER_SIZE>`: extract the 4 mask bytes sitting
right before the payload (at offset `HEADER_SIZE - 4` of the frame) and
unmask the payload.  `frame` is the buffer positioned at the frame's first
header byte, as in the caller. -/
def unmaskImpreciseCopyMask (HEADER_SIZE : Nat) (frame : List Nat) (length : Nat) : List Nat :=
  if HEADER_SIZE ≠ 6 then
    let mask := ((frame.drop (HEADER_SIZE - 4)).take 4)
    unmaskImprecise8 (frame.drop HEADER_SIZE) (mask ++ mask) length
  else
    unmaskImprecise4 (frame.drop HEADER_SIZE) ((frame.drop 2).take 4) length

/-- `unmaskInplace(src, src + n4 * 4, mask)`: `n4` four-byte strides. -/
def unmaskInplace (src mask : List Nat) (n4 : Nat) : List Nat :=
  xorBlocks 4 mask n4 src

/-- `rotateMask(offset, mask)`: the source stores `mask[(i + offset) % 4] =
original[i]`, i.e. the new mask at index `j` is the old mask at index
`(j - offset) mod 4`. -/
def rotateMask (offset : Nat) (mask : List Nat) : List Nat :=
  (List.range 4).map fun j => mask.getD ((j + 4 - offset % 4) % 4) 0

/-- `LIBUS_RECV_BUFFER_LENGTH` (from `libusockets.h`, external to the parser):
the transport's receive-buffer size; only the value's being a multiple of 16
matters to the parser.  Modelled from the spec: the default usockets build
uses 524288. -/
def LIBUS_RECV_BUFFER_LENGTH : Nat := 524288

/-- `unmaskAll`: `UnrolledXor<16>` over the whole receive buffer. -/
def unmaskAll (data mask : List Nat) : List Nat :=
  xorBlocks 16 mask (LIBUS_RECV_BUFFER_LENGTH / 16) data

/-! ## Connection state -/

/-- `WebSocketState<isServer>` together with its nested bit-field `State`.
`opStack` is the 2-bit signed field (values −1, 0, 1 in every reachable
state); `opCode0`/`opCode1` are the two entries of `opCode[2]`; `spill` holds
exactly the live spilled bytes (see the module comment); `mask` is the 4-byte
masking key (server side; the client's 1-byte placeholder is never read). -/
structure WebSocketState where
  wantsHead : Bool
  spillLength : Nat
  opStack : Int
  lastFin : Bool
  spill : List Nat
  opCode0 : Nat
  opCode1 : Nat
  remainingBytes : Nat
  mask : List Nat
deriving DecidableEq

/-- The `State()` constructor; array members start out zeroed in the model
(they are written before any read on every reachable path). -/
def freshState : WebSocketState :=
  { wantsHead := true, spillLength := 0, opStack := -1, lastFin := true,
    spill := [], opCode0 := 0, opCode1 := 0, remainingBytes := 0, mask := [0, 0, 0, 0] }

/-- Read `opCode[i]`; only `i = 0` and `i = 1` occur on reachable paths. -/
def WebSocketState.opCodeAt (st : WebSocketState) (i : Int) : Nat :=
  if i ≤ 0 then st.opCode0 else st.opCode1

/-- Write `opCode[i]`. -/
def WebSocketState.setOpCodeAt (st : WebSocketState) (i : Int) (v : Nat) : WebSocketState :=
  if i ≤ 0 then { st with opCode0 := v } else { st with opCode1 := v }

/-! ## Observable behaviour -/

/-- One observable callback of the parser: a `handleFragment` invocation
(with the payload bytes handed to the handler, the `remainingBytes`
argument, the opcode argument and the fin argument), a `forceClose`, or the
marker for the diverging zero-advance corner (see the module comment). -/
inductive Event where
  | fragment (data : List Nat) (remainingBytes : Nat) (opCode : Nat) (fin : Bool)
  | forceClose (reason : String)
  | stuck
deriving DecidableEq

/-- The handler capability set: `refusePayloadLength` as a pure predicate on
the payload length, `setCompressed` as the fixed result of the negotiation
query. -/
structure Impl where
  refusePayloadLength : Nat → Bool
  setCompressed : Bool

/-- Result of `consumeMessage` / `consumeContinuation`: the C boolean return
value, the advanced buffer, the new state, and the recorded events. -/
structure MsgResult where
  ret : Bool
  buf : List Nat
  st : WebSocketState
  events : List Event

/-! ## The parser -/

/-- Tail of `consumeMessage<MESSAGE_HEADER, T>` after the opcode checks:
update `lastFin`, consult `refusePayloadLength`, then either consume the
complete frame (case A) or record the partial body (case B).

`wrap64 (payLength + MESSAGE_HEADER)` is the source's `payLength +
MESSAGE_HEADER` (computed in `T`'s promoted width — exact for the `uint8_t`
and `uint16_t` instantiations, mod `2^64` for `uint64_t`), and the
`remainingBytes` store is the source's
`(unsigned int) (payLength - length + MESSAGE_HEADER)`. -/
def consumeMessageRest (isServer : Bool) (impl : Impl) (MESSAGE_HEADER : Nat)
    (payLength : Nat) (src : List Nat) (wState : WebSocketState) : MsgResult :=
  let wState := { wState with lastFin := isFin src }
  if impl.refusePayloadLength payLength then
    ⟨true, src, wState, [.forceClose ERR_TOO_BIG_MESSAGE]⟩
  else if wrap64 (payLength + MESSAGE_HEADER) ≤ src.length then
    -- frame complete in buffer
    let fin := isFin src
    let data :=
      if isServer then
        (unmaskImpreciseCopyMask MESSAGE_HEADER src (wrap32 payLength)).take payLength
      else
        (src.drop MESSAGE_HEADER).take payLength
    let ev := Event.fragment data 0 (wState.opCodeAt wState.opStack) fin
    let wState := if fin then { wState with opStack := wState.opStack - 1 } else wState
    ⟨false, src.drop (wrap64 (payLength + MESSAGE_HEADER)),
      { wState with spillLength := 0, spill := [] }, [ev]⟩
  else
    -- body continues beyond this buffer
    let remaining := wrap32 (wrap64 (payLength + MESSAGE_HEADER + 2 ^ 64 - src.length))
    let wState := { wState with
      spillLength := 0
      spill := []
      wantsHead := false
      remainingBytes := remaining }
    let fin := isFin src
    if isServer then
      let wState := { wState with mask := (src.drop (MESSAGE_HEADER - 4)).take 4 }
      let mask8 := wState.mask ++ wState.mask
      let data := (unmaskImprecise8 (src.drop MESSAGE_HEADER) mask8 src.length).take
        (src.length - MESSAGE_HEADER)
      let ev := Event.fragment data wState.remainingBytes (wState.opCodeAt wState.opStack) fin
      let wState :=
        { wState with mask := rotateMask (4 - (src.length - MESSAGE_HEADER) % 4) wState.mask }
      ⟨true, src, wState, [ev]⟩
    else
      let data := (src.drop MESSAGE_HEADER).take (src.length - MESSAGE_HEADER)
      ⟨true, src, wState,
        [.fragment data wState.remainingBytes (wState.opCodeAt wState.opStack) fin]⟩

/-- `consumeMessage<MESSAGE_HEADER, T>`: the fragmentation/opcode-stack
checks, then `consumeMessageRest`. -/
def consumeMessage (isServer : Bool) (impl : Impl) (MESSAGE_HEADER : Nat)
    (payLength : Nat) (src : List Nat) (wState : WebSocketState) : MsgResult :=
  if getOpCode src ≠ 0 then
    if wState.opStack = 1 ∨ (¬wState.lastFin ∧ getOpCode src < 2) then
      ⟨true, src, wState, [.forceClose ERR_PROTOCOL]⟩
    else
      let wState := { wState with opStack := wState.opStack + 1 }
      let wState := wState.setOpCodeAt wState.opStack (getOpCode src)
      consumeMessageRest isServer impl MESSAGE_HEADER payLength src wState
  else if wState.opStack = -1 then
    ⟨true, src, wState, [.forceClose ERR_PROTOCOL]⟩
  else
    consumeMessageRest isServer impl MESSAGE_HEADER payLength src wState

/-- `consumeContinuation`: consume body bytes of a frame whose header was
decoded in an earlier call.  `ret = true` means the frame's body is complete
and the caller jumps back to the header loop. -/
def consumeContinuation (isServer : Bool) (_impl : Impl) (src : List Nat)
    (wState : WebSocketState) : MsgResult :=
  if wState.remainingBytes ≤ src.length then
    -- rest of the body is in this buffer
    let data :=
      if isServer then
        let n := wState.remainingBytes >>> 2
        unmaskInplace src wState.mask n ++
          ((List.range (wState.remainingBytes % 4)).map fun i =>
            src.getD (n * 4 + i) 0 ^^^ wState.mask.getD i 0)
      else
        src.take wState.remainingBytes
    let ev := Event.fragment data 0 (wState.opCodeAt wState.opStack) wState.lastFin
    let wState := if wState.lastFin then { wState with opStack := wState.opStack - 1 } else wState
    ⟨true, src.drop wState.remainingBytes, { wState with wantsHead := true }, [ev]⟩
  else
    -- the whole buffer is body, and more is to come
    let data :=
      if isServer then
        if wState.mask = [0, 0, 0, 0] then src  -- memcmp null-mask fast skip
        else if src.length = LIBUS_RECV_BUFFER_LENGTH then (unmaskAll src wState.mask).take src.length
        else (unmaskInplace src wState.mask (src.length >>> 2 + 1)).take src.length
      else src
    let wState := { wState with remainingBytes := wState.remainingBytes - src.length }
    let ev := Event.fragment data wState.remainingBytes (wState.opCodeAt wState.opStack) wState.lastFin
    let wState :=
      if isServer ∧ src.length % 4 ≠ 0 then
        { wState with mask := rotateMask (4 - src.length % 4) wState.mask }
      else wState
    ⟨false, src, wState, [ev]⟩

/-- The residual-byte spill at the exit of the header loop. -/
def spillExit (src : List Nat) (wState : WebSocketState) : WebSocketState :=
  if src.length ≠ 0 then
    { wState with spill := src, spillLength := src.length &&& 15 }
  else wState

/-- The header-validation condition at the top of the header loop. -/
def badHeader (impl : Impl) (src : List Nat) : Prop :=
  (rsv1 src ∧ ¬impl.setCompressed) ∨ rsv23 src ∨
  (getOpCode src > 2 ∧ getOpCode src < 8) ∨ getOpCode src > 10 ∨
  (getOpCode src > 2 ∧ (¬isFin src ∨ payloadLength src > 125))

instance (impl : Impl) (src : List Nat) : Decidable (badHeader impl src) := by
  unfold badHeader; infer_instance

/-- The `parseNext` header loop of `consume`, with an explicit iteration
budget (`fuel`).  Each loop iteration consumes at least one byte except on
the diverging zero-advance corner (see the module comment), so the budget
`src.length + 1` used by `parseNext` can run out only where the source
itself loops forever; the model then reports the `stuck` marker. -/
def parseNextF (isServer : Bool) (impl : Impl) : Nat → List Nat → WebSocketState →
    WebSocketState × List Event
  | 0, _, wState => (wState, [.stuck])
  | fuel + 1, src, wState =>
    if SHORT_MESSAGE_HEADER isServer ≤ src.length then
      if badHeader impl src then
        (wState, [.forceClose ERR_PROTOCOL])
      else if payloadLength src < 126 then
        let r := consumeMessage isServer impl (SHORT_MESSAGE_HEADER isServer)
          (payloadLength src) src wState
        if r.ret then (r.st, r.events)
        else
          let p := parseNextF isServer impl fuel r.buf r.st
          (p.1, r.events ++ p.2)
      else if payloadLength src = 126 then
        if src.length < MEDIUM_MESSAGE_HEADER isServer then (spillExit src wState, [])
        else
          let r := consumeMessage isServer impl (MEDIUM_MESSAGE_HEADER isServer)
            (condByteSwap16 (bitCast16 (src.drop 2))) src wState
          if r.ret then (r.st, r.events)
          else
            let p := parseNextF isServer impl fuel r.buf r.st
            (p.1, r.events ++ p.2)
      else if src.length < LONG_MESSAGE_HEADER isServer then (spillExit src wState, [])
      else
        let r := consumeMessage isServer impl (LONG_MESSAGE_HEADER isServer)
          (condByteSwap64 (bitCast64 (src.drop 2))) src wState
        if r.ret then (r.st, r.events)
        else
          let p := parseNextF isServer impl fuel r.buf r.st
          (p.1, r.events ++ p.2)
    else (spillExit src wState, [])

/-- The header loop as entered by `consume`. -/
def parseNext (isServer : Bool) (impl : Impl) (src : List Nat) (wState : WebSocketState) :
    WebSocketState × List Event :=
  parseNextF isServer impl (src.length + 1) src wState

/-- `consume`: prepend the spilled bytes, then either parse headers or
continue a split body (jumping back to the header loop when the body
completes). -/
def consume (isServer : Bool) (impl : Impl) (src0 : List Nat) (wState : WebSocketState) :
    WebSocketState × List Event :=
  let src := wState.spill.take wState.spillLength ++ src0
  let wState := { wState with spill := [], spillLength := 0 }
  if wState.wantsHead then
    parseNext isServer impl src wState
  else
    let r := consumeContinuation isServer impl src wState
    if r.ret then
      let p := parseNext isServer impl r.buf r.st
      (p.1, r.events ++ p.2)
    else (r.st, r.events)

/-- Whether an event list terminates the connection (a `forceClose`, or the
stuck marker): the driver stops feeding afterwards. -/
def hasStop (evs : List Event) : Bool :=
  evs.any fun e => match e with
    | .fragment _ _ _ _ => false
    | _ => true

/-- Feed a list of chunks one `consume` call at a time, stopping after a
call that closed the connection. -/
def runChunks (isServer : Bool) (impl : Impl) : WebSocketState → List (List Nat) →
    WebSocketState × List Event
  | st, [] => (st, [])
  | st, c :: cs =>
    let p := consume isServer impl c st
    if hasStop p.2 then p
    else
      let q := runChunks isServer impl p.1 cs
      (q.1, p.2 ++ q.2)

/-- The `OpCode` enum. -/
def CONTINUATION : Nat := 0
def TEXT : Nat := 1
def BINARY : Nat := 2
def CLOSE : Nat := 8
def PING : Nat := 9
def PONG : Nat := 10

/-- A handler implementation that never refuses a payload and has not
negotiated compression. -/
def implDefault : Impl := ⟨fun _ => false, false⟩

/-! ## Collapsing event traces to per-frame messages

Splitting a stream differently changes how many `handleFragment` calls a
frame's body is spread over, but not the frame sequence they describe: a
call with `remainingBytes = 0` completes the current frame.  `collapse`
replays a trace into completed messages plus the pending partial payload. -/

/-- A completed observable item: a data/control frame reassembled from its
`handleFragment` calls, a close, or the stuck marker. -/
inductive Msg where
  | msg (opCode : Nat) (fin : Bool) (data : List Nat)
  | closed (reason : String)
  | stuckMark
deriving DecidableEq

/-- Collapse accumulator: completed items plus the pending frame's opcode,
fin flag and payload gathered so far. -/
structure Gather where
  done : List Msg
  pendOp : Nat
  pendFin : Bool
  pend : List Nat
deriving DecidableEq

def gatherStep (g : Gather) : Event → Gather
  | .fragment d r op fin =>
    if r = 0 then
      { done := g.done ++ [.msg op fin (g.pend ++ d)], pendOp := 0, pendFin := false, pend := [] }
    else
      { g with pendOp := op, pendFin := fin, pend := g.pend ++ d }
  | .forceClose s => { g with done := g.done ++ [.closed s] }
  | .stuck => { g with done := g.done ++ [.stuckMark] }

def gatherFrom (g : Gather) (evs : List Event) : Gather := evs.foldl gatherStep g

def emptyGather : Gather := ⟨[], 0, false, []⟩

def collapse (evs : List Event) : Gather := gatherFrom emptyGather evs

/-- All payload bytes handed to `handleFragment`, in order. -/
def fragmentsData (evs : List Event) : List Nat :=
  (evs.map fun e => match e with
    | .fragment d _ _ _ => d
    | _ => []).flatten

/-! ## Stream well-formedness for the completeness claim

A 64-bit declared payload length of `2^32` or more overflows the parser's
32-bit `remainingBytes` bookkeeping, making the frame sequence depend on
where the stream is split (see the counterexample below).  `framesGood`
walks the frame geometry of a byte stream — exactly the header sizes and
length fields the parser uses — and checks every declared payload length
fits in 32 bits. -/
def framesGoodF (isServer : Bool) : Nat → List Nat → Bool
  | 0, _ => false
  | fuel + 1, src =>
    if SHORT_MESSAGE_HEADER isServer ≤ src.length then
      if payloadLength src < 126 then
        framesGoodF isServer fuel (src.drop (payloadLength src + SHORT_MESSAGE_HEADER isServer))
      else if payloadLength src = 126 then
        if src.length < MEDIUM_MESSAGE_HEADER isServer then true
        else
          framesGoodF isServer fuel
            (src.drop (condByteSwap16 (bitCast16 (src.drop 2)) + MEDIUM_MESSAGE_HEADER isServer))
      else if src.length < LONG_MESSAGE_HEADER isServer then true
      else
        let pl := condByteSwap64 (bitCast64 (src.drop 2))
        if pl < 2 ^ 32 then
          framesGoodF isServer fuel (src.drop (pl + LONG_MESSAGE_HEADER isServer))
        else false
    else true

def framesGood (isServer : Bool) (src : List Nat) : Bool :=
  framesGoodF isServer (src.length + 1) src

/-- The cyclic-mask XOR the unmask claims are phrased with: byte `i` of `xs`
(counting from `off`) XORed with `mask[(off + i) mod 4]`. -/
def maskXor (mask : List Nat) : Nat → List Nat → List Nat
  | _, [] => []
  | off, b :: rest => (b ^^^ mask.getD (off % 4) 0) :: maskXor mask (off + 1) rest

/-! ## UTF-8 validator (`protocol::isValidUtf8`) -/

/-- The inner `while (!(*s & 0x80))` loop: skip ASCII bytes; `none` when the
buffer is exhausted (the validator returns true), otherwise the suffix
starting at the first byte with its high bit set. -/
def asciiWhile : List Nat → Option (List Nat)
  | [] => none
  | b :: rest => if b &&& 128 = 0 then asciiWhile rest else some (b :: rest)

/-- `protocol::isValidUtf8`: the 16-byte ASCII fast path, the ASCII skip
loop, and the per-leading-byte classification of Markus Kuhn's validator.
Each outer `for`-loop iteration consumes at least one byte, so the
`s.length + 1` budget used by `isValidUtf8` never runs out; the fuel-0
value is unreachable. -/
def isValidUtf8F : Nat → List Nat → Bool
  | 0, _ => true
  | fuel + 1, s =>
    if s.isEmpty then true
    else if 16 ≤ s.length ∧
        ((bitCast64 s &&& 0x8080808080808080) |||
          (bitCast64 (s.drop 8) &&& 0x8080808080808080)) = 0 then
      isValidUtf8F fuel (s.drop 16)
    else
      match asciiWhile s with
      | none => true
      | some t =>
        if (t.getD 0 0 &&& 0x60) = 0x40 then
          if t.length < 2 ∨ (t.getD 1 0 &&& 0xc0) ≠ 0x80 ∨ (t.getD 0 0 &&& 0xfe) = 0xc0 then
            false
          else isValidUtf8F fuel (t.drop 2)
        else if (t.getD 0 0 &&& 0xf0) = 0xe0 then
          if t.length < 3 ∨ (t.getD 1 0 &&& 0xc0) ≠ 0x80 ∨ (t.getD 2 0 &&& 0xc0) ≠ 0x80 ∨
              (t.getD 0 0 = 0xe0 ∧ (t.getD 1 0 &&& 0xe0) = 0x80) ∨
              (t.getD 0 0 = 0xed ∧ (t.getD 1 0 &&& 0xe0) = 0xa0) then
            false
          else isValidUtf8F fuel (t.drop 3)
        else if (t.getD 0 0 &&& 0xf8) = 0xf0 then
          if t.length < 4 ∨ (t.getD 1 0 &&& 0xc0) ≠ 0x80 ∨ (t.getD 2 0 &&& 0xc0) ≠ 0x80 ∨
              (t.getD 3 0 &&& 0xc0) ≠ 0x80 ∨
              (t.getD 0 0 = 0xf0 ∧ (t.getD 1 0 &&& 0xf0) = 0x80) ∨
              (t.getD 0 0 = 0xf4 ∧ t.getD 1 0 > 0x8f) ∨ t.getD 0 0 > 0xf4 then
            false
          else isValidUtf8F fuel (t.drop 4)
        else false

def isValidUtf8 (s : List Nat) : Bool := isValidUtf8F (s.length + 1) s

/-! ## Close-payload codec (`protocol::parseClosePayload`) -/

/-- `protocol::CloseFrame`; `message` holds the reason bytes (or the static
error string's bytes). -/
structure CloseFrame where
  code : Nat
  message : List Nat
  length : Nat
deriving DecidableEq

/-- `protocol::parseClosePayload`. -/
def parseClosePayload (src : List Nat) : CloseFrame :=
  let cf : CloseFrame := ⟨1005, [], 0⟩
  if 2 ≤ src.length then
    let cf : CloseFrame := ⟨condByteSwap16 (bitCast16 src), src.drop 2, src.length - 2⟩
    if cf.code < 1000 ∨ cf.code > 4999 ∨ (cf.code > 1011 ∧ cf.code < 4000) ∨
        (cf.code ≥ 1004 ∧ cf.code ≤ 1006) ∨ ¬isValidUtf8 cf.message then
      ⟨1006, strBytes ERR_INVALID_CLOSE_PAYLOAD, (strBytes ERR_INVALID_CLOSE_PAYLOAD).length⟩
    else cf
  else cf

/-! ## Outbound framer (`protocol::formatMessage`, `protocol::messageFrameSize`) -/

def UINT16_MAX : Nat := 65535

/-- `protocol::messageFrameSize`. -/
def messageFrameSize (messageSize : Nat) : Nat :=
  if messageSize < 126 then 2 + messageSize
  else if messageSize ≤ UINT16_MAX then 4 + messageSize
  else 10 + messageSize

def SND_COMPRESSED : Nat := 64

/-- `w` bytes of `v`, little-endian order (a `memcpy` of a `w`-byte value on
a little-endian host). -/
def bytesLE (w v : Nat) : List Nat := (List.range w).map fun i => v / 256 ^ i % 256

/-- `n` bytes read starting at `src` (a `memcpy` out of the caller's
buffer). -/
def readBytes (src : List Nat) (n : Nat) : List Nat :=
  (List.range n).map fun i => src.getD i 0

/-- `protocol::formatMessage<isServer>`: returns the written frame bytes and
the returned `messageLength`.  `randomValue` stands for the `rand()` call
providing the client mask. -/
def formatMessage (isServer : Bool) (randomValue : Nat) (src : List Nat) (length : Nat)
    (opCode : Nat) (reportedLength : Nat) (compressed fin : Bool) : List Nat × Nat :=
  let lenField : List Nat :=
    if reportedLength < 126 then [reportedLength]
    else if reportedLength ≤ UINT16_MAX then 126 :: bytesLE 2 (condByteSwap16 reportedLength)
    else 127 :: bytesLE 8 (condByteSwap64 (wrap64 reportedLength))
  let headerLength : Nat :=
    if reportedLength < 126 then 2 else if reportedLength ≤ UINT16_MAX then 4 else 10
  let byte0 : Nat :=
    (if fin then 128 else 0) ||| (if compressed ∧ opCode ≠ 0 then SND_COMPRESSED else 0) ||| opCode
  let payload := readBytes src length
  if isServer then
    (byte0 :: (lenField ++ payload), headerLength + length)
  else
    let mask := bytesLE 4 (wrap32 randomValue)
    let lenField := lenField.set 0 (lenField.getD 0 0 ||| 128)
    let masked := (List.range length).map fun i => payload.getD i 0 ^^^ mask.getD (i % 4) 0
    (byte0 :: (lenField ++ mask ++ masked), headerLength + 4 + length)

/-! ## Move-only invocable (`ofats::any_invocable`)

The model keeps the observable pieces of `any_invocable_impl`: whether
`handle_` is set, and the callable the storage holds when it is.  The
`handle_(action::move, …)` vtable call transfers the storage and leaves the
source's storage indeterminate (destroyed for the small handler, a dangling
pointer for the large one) — modelled as `none`. -/
structure AnyInvocable (C : Type) where
  storage : Option C
  hasHandle : Bool
deriving DecidableEq

namespace AnyInvocable

/-- `any_invocable_impl()` / `any_invocable_impl(nullptr_t)`. -/
def empty {C : Type} : AnyInvocable C := ⟨none, false⟩

/-- `any_invocable_impl(any_invocable_impl&& rhs)`: returns the constructed
object and `rhs` afterwards. -/
def moveConstruct {C : Type} (rhs : AnyInvocable C) : AnyInvocable C × AnyInvocable C :=
  if rhs.hasHandle then (⟨rhs.storage, true⟩, ⟨none, false⟩)
  else (⟨none, false⟩, rhs)

/-- `swap(any_invocable_impl&)`: returns `(*this, rhs)` afterwards.  The
first branch is the three-move dance through `tmp`; the second is the
source's delegation `rhs.swap(*this)`; the third moves `rhs` into an empty
`*this`. -/
def swap {C : Type} (self rhs : AnyInvocable C) : AnyInvocable C × AnyInvocable C :=
  if self.hasHandle then
    if rhs.hasHandle then (⟨rhs.storage, true⟩, ⟨self.storage, true⟩)
    else (⟨none, false⟩, ⟨self.storage, true⟩)
  else if rhs.hasHandle then (⟨rhs.storage, true⟩, ⟨none, false⟩)
  else (self, rhs)

/-- `operator=(any_invocable_impl&& rhs)`:
`any_invocable_impl{std::move(rhs)}.swap(*this)`; the temporary is then
destroyed.  Returns `(*this, rhs)` afterwards. -/
def moveAssign {C : Type} (lhs rhs : AnyInvocable C) : AnyInvocable C × AnyInvocable C :=
  let p := moveConstruct rhs
  let q := swap p.1 lhs
  (q.2, p.2)

/-- `explicit operator bool()`. -/
def opBool {C : Type} (f : AnyInvocable C) : Bool := f.hasHandle

/-- `operator==(f, nullptr)`. -/
def eqNull {C : Type} (f : AnyInvocable C) : Bool := !f.opBool

end AnyInvocable

/-! ## RFC 3629 well-formedness (specification side, for claim C7) -/

/-- The shortest-form UTF-8 encoding of a scalar value, per RFC 3629. -/
def utf8Encode (c : Nat) : List Nat :=
  if c < 0x80 then [c]
  else if c < 0x800 then [0xC0 + c / 64, 0x80 + c % 64]
  else if c < 0x10000 then [0xE0 + c / 4096, 0x80 + c / 64 % 64, 0x80 + c % 64]
  else [0xF0 + c / 262144, 0x80 + c / 4096 % 64, 0x80 + c / 64 % 64, 0x80 + c % 64]

/-- A Unicode scalar value admissible in UTF-8 text: at most U+10FFFF and
not a surrogate. -/
def ScalarValue (c : Nat) : Prop := c ≤ 0x10FFFF ∧ ¬(0xD800 ≤ c ∧ c ≤ 0xDFFF)

/-- Well-formed UTF-8 per RFC 3629: a concatenation of shortest-form
encodings of admissible scalar values. -/
inductive Utf8Wf : List Nat → Prop
  | nil : Utf8Wf []
  | cons (c : Nat) (rest : List Nat) : ScalarValue c → Utf8Wf rest → Utf8Wf (utf8Encode c ++ rest)

/-- The validator's classification, one character at a time, bit tests
replaced by arithmetic ranges. -/
def isValidUtf8Simple (s : List Nat) : Bool :=
  if s.length = 0 then true
  else
    if s.getD 0 0 < 0x80 then isValidUtf8Simple (s.drop 1)
    else if 0xC0 ≤ s.getD 0 0 ∧ s.getD 0 0 ≤ 0xDF then
      if h2 : 2 ≤ s.length ∧ 0x80 ≤ s.getD 1 0 ∧ s.getD 1 0 ≤ 0xBF ∧ 0xC2 ≤ s.getD 0 0 then
        isValidUtf8Simple (s.drop 2)
      else false
    else if 0xE0 ≤ s.getD 0 0 ∧ s.getD 0 0 ≤ 0xEF then
      if h3 : 3 ≤ s.length ∧ (0x80 ≤ s.getD 1 0 ∧ s.getD 1 0 ≤ 0xBF) ∧
          (0x80 ≤ s.getD 2 0 ∧ s.getD 2 0 ≤ 0xBF) ∧
          ¬(s.getD 0 0 = 0xE0 ∧ s.getD 1 0 ≤ 0x9F) ∧
          ¬(s.getD 0 0 = 0xED ∧ 0xA0 ≤ s.getD 1 0) then
        isValidUtf8Simple (s.drop 3)
      else false
    else if 0xF0 ≤ s.getD 0 0 ∧ s.getD 0 0 ≤ 0xF4 then
      if h4 : 4 ≤ s.length ∧ (0x80 ≤ s.getD 1 0 ∧ s.getD 1 0 ≤ 0xBF) ∧
          (0x80 ≤ s.getD 2 0 ∧ s.getD 2 0 ≤ 0xBF) ∧
          (0x80 ≤ s.getD 3 0 ∧ s.getD 3 0 ≤ 0xBF) ∧
          ¬(s.getD 0 0 = 0xF0 ∧ s.getD 1 0 ≤ 0x8F) ∧
          ¬(s.getD 0 0 = 0xF4 ∧ 0x8F < s.getD 1 0) then
        isValidUtf8Simple (s.drop 4)
      else false
    else false
termination_by s.length
decreasing_by
  · simp only [List.length_drop]; omega
  · simp only [List.length_drop]; omega
  · simp only [List.length_drop]; omega
  · simp only [List.length_drop]; omega

/-! ## Auxiliary notions for the chunk-fusion development -/

/-- The opcode-push step at the head of `consumeMessage` (the two stores
guarded by `getOpCode(src)`). -/
def pushOp (src : List Nat) (st : WebSocketState) : WebSocketState :=
  if getOpCode src ≠ 0 then
    ({ st with opStack := st.opStack + 1 }).setOpCodeAt (st.opStack + 1) (getOpCode src)
  else st

/-- Op-stack safety: `opStack ∈ {−1, 0, 1}`, and a pending body
(`wantsHead = false`) has its data frame's opcode on the stack
(`opStack ∈ {0, 1}`). -/
def OpOk (st : WebSocketState) : Prop :=
  (st.opStack = -1 ∨ st.opStack = 0 ∨ st.opStack = 1) ∧
  (st.wantsHead = false → st.opStack = 0 ∨ st.opStack = 1)

/-- Two states that agree on every field the header loop reads — all but the
body-continuation registers `remainingBytes` and `mask`, which a frame
header's split (case B) rewrites before any read. -/
def agreeHead (x y : WebSocketState) : Prop :=
  x.wantsHead = y.wantsHead ∧ x.spillLength = y.spillLength ∧ x.opStack = y.opStack ∧
  x.lastFin = y.lastFin ∧ x.spill = y.spill ∧ x.opCode0 = y.opCode0 ∧ x.opCode1 = y.opCode1

/-- The byte stream still to be parsed (live spill plus unread input) has
sound frame geometry from the parser's current position: headers from the
top for a header-hungry state, headers after the pending body otherwise. -/
def StreamOk (S : Bool) (st : WebSocketState) (rest : List Nat) : Bool :=
  if st.wantsHead then framesGood S (st.spill.take st.spillLength ++ rest)
  else framesGood S ((st.spill.take st.spillLength ++ rest).drop st.remainingBytes)

/-- Mask-register soundness: a pending server-side body has a 4-byte mask. -/
def MaskOk (S : Bool) (st : WebSocketState) : Prop :=
  st.wantsHead = false → S = true → st.mask.length = 4

/-- All payload bytes a collapsed trace accounts for: bytes inside completed
messages, then the pending partial payload. -/
def gatherBytes (g : Gather) : List Nat :=
  (g.done.map fun m => match m with
    | .msg _ _ d => d
    | _ => []).flatten ++ g.pend

/-- Wire image of a server-bound frame header: FIN/opcode byte, MASK bit
with the 7-bit length or the 16- or 64-bit big-endian extended length, then
the 4-byte masking key (claim vocabulary, from the spec's framing
description). -/
def serverWireHdr (op : Nat) (fin : Bool) (n : Nat) (m : List Nat) : List Nat :=
  ((if fin then 128 + op else op) ::
    (if n < 126 then [128 + n]
     else if n ≤ 65535 then [254, n / 256, n % 256]
     else [255] ++ (List.range 8).map fun i => n / 256 ^ (7 - i) % 256)) ++ m

/-! # Theorems -/

/-! ## UTF-8 validator correctness (claim C7) -/

set_option maxRecDepth 4000

theorem byteF1 : ∀ b < 256, ((b &&& 128 = 0) ↔ b < 128) := by decide
theorem byteF2 : ∀ b < 256, 128 ≤ b → ((b &&& 0x60 = 0x40) ↔ (0xC0 ≤ b ∧ b ≤ 0xDF)) := by decide
theorem byteF3 : ∀ b < 256, ((b &&& 0xf0 = 0xe0) ↔ (0xE0 ≤ b ∧ b ≤ 0xEF)) := by decide
theorem byteF4 : ∀ b < 256, ((b &&& 0xf8 = 0xf0) ↔ (0xF0 ≤ b ∧ b ≤ 0xF7)) := by decide
theorem byteF5 : ∀ b < 256, ((b &&& 0xc0 = 0x80) ↔ (0x80 ≤ b ∧ b ≤ 0xBF)) := by decide
theorem byteF6 : ∀ b < 256, ((b &&& 0xfe = 0xc0) ↔ (b = 0xC0 ∨ b = 0xC1)) := by decide
theorem byteF7 : ∀ b < 256, ((b &&& 0xe0 = 0x80) ↔ (0x80 ≤ b ∧ b ≤ 0x9F)) := by decide
theorem byteF8 : ∀ b < 256, ((b &&& 0xe0 = 0xa0) ↔ (0xA0 ≤ b ∧ b ≤ 0xBF)) := by decide
theorem byteF9 : ∀ b < 256, ((b &&& 0xf0 = 0x80) ↔ (0x80 ≤ b ∧ b ≤ 0x8F)) := by decide

theorem asciiWhile_none_all {s : List Nat} (h : asciiWhile s = none) : ∀ b ∈ s, b &&& 128 = 0 := by
  induction s with
  | nil => simp
  | cons b rest ih =>
    simp only [asciiWhile] at h
    by_cases hb : b &&& 128 = 0
    · rw [if_pos hb] at h
      intro x hx
      rcases List.mem_cons.mp hx with rfl | hx
      · exact hb
      · exact ih h x hx
    · rw [if_neg hb] at h; exact absurd h (by simp)

theorem asciiWhile_some_decomp {s t : List Nat} (h : asciiWhile s = some t) :
    ∃ pre, s = pre ++ t ∧ (∀ b ∈ pre, b &&& 128 = 0) ∧
      ∃ b t', t = b :: t' ∧ ¬ b &&& 128 = 0 := by
  induction s with
  | nil => simp [asciiWhile] at h
  | cons b rest ih =>
    simp only [asciiWhile] at h
    by_cases hb : b &&& 128 = 0
    · rw [if_pos hb] at h
      obtain ⟨pre, hs, hpre, hb'⟩ := ih h
      refine ⟨b :: pre, by simp [hs], ?_, hb'⟩
      intro x hx
      rcases List.mem_cons.mp hx with rfl | hx
      · exact hb
      · exact hpre x hx
    · rw [if_neg hb] at h
      simp only [Option.some.injEq] at h
      exact ⟨[], by simp [← h], by simp, b, rest, h.symm, hb⟩

theorem simple_nil : isValidUtf8Simple [] = true := by
  rw [isValidUtf8Simple.eq_def]; rfl

theorem simple_ascii (b : Nat) (r : List Nat) (hb : b < 128) :
    isValidUtf8Simple (b :: r) = isValidUtf8Simple r := by
  rw [isValidUtf8Simple.eq_def]
  simp only [List.length_cons, List.getD_cons_zero, List.drop_succ_cons, List.drop_zero]
  rw [if_neg (by omega), if_pos hb]

theorem simple_ascii_peel : ∀ (pre r : List Nat), (∀ b ∈ pre, b < 128) →
    isValidUtf8Simple (pre ++ r) = isValidUtf8Simple r := by
  intro pre
  induction pre with
  | nil => simp
  | cons b p ih =>
    intro r h
    rw [List.cons_append, simple_ascii b _ (h b (by simp))]
    exact ih r (fun x hx => h x (by simp [hx]))

theorem digit_lt_128 (x b k : Nat) (hx : x / 2 ^ (8 * k) % 256 = b)
    (h2 : ¬ x / 2 ^ (8 * k + 7) % 2 = 1) : b < 128 := by
  have he : x / 2 ^ (8 * k + 7) = x / 2 ^ (8 * k) / 128 := by
    rw [Nat.div_div_eq_div_mul, pow_add]
    norm_num
  rw [he] at h2
  omega

theorem high_mask_byte (c : List Nat) (hb : ∀ i, i < 8 → c.getD i 0 < 256)
    (h : bitCast64 c &&& 0x8080808080808080 = 0) (k : Nat) (hk : k < 8) :
    c.getD k 0 < 128 := by
  have ht : (bitCast64 c &&& 0x8080808080808080).testBit (8 * k + 7) = false := by
    rw [h]; exact Nat.zero_testBit _
  rw [Nat.testBit_and] at ht
  have hM : (0x8080808080808080 : Nat).testBit (8 * k + 7) = true := by
    interval_cases k <;> decide
  rw [hM, Bool.and_true] at ht
  rw [Nat.testBit_to_div_mod] at ht
  simp only [decide_eq_false_iff_not] at ht
  have h0 := hb 0 (by omega); have h1 := hb 1 (by omega)
  have h2 := hb 2 (by omega); have h3 := hb 3 (by omega)
  have h4 := hb 4 (by omega); have h5 := hb 5 (by omega)
  have h6 := hb 6 (by omega); have h7 := hb 7 (by omega)
  interval_cases k <;>
  · refine digit_lt_128 (bitCast64 c) _ _ ?_ ht
    unfold bitCast64
    omega

theorem bytes_getD {l : List Nat} (h : ∀ x ∈ l, x < 256) (i : Nat) : l.getD i 0 < 256 := by
  rcases Nat.lt_or_ge i l.length with hi | hi
  · rw [List.getD_eq_getElem _ _ hi]
    exact h _ (List.getElem_mem hi)
  · rw [List.getD_eq_default _ _ hi]
    norm_num

theorem lor_zero_split {a b : Nat} (h : a ||| b = 0) : a = 0 ∧ b = 0 := by
  constructor <;>
  · apply Nat.eq_of_testBit_eq
    intro i
    have hc := congrArg (fun x => x.testBit i) h
    simp only [Nat.testBit_or, Nat.zero_testBit, Bool.or_eq_false_iff] at hc
    simp [hc.1, hc.2]

theorem getD_drop (l : List Nat) (n i : Nat) : (l.drop n).getD i 0 = l.getD (n + i) 0 := by
  simp [List.getD_eq_getElem?_getD, List.getElem?_drop]

theorem fastpath_ascii (s : List Nat) (hb : ∀ b ∈ s, b < 256) (h16 : 16 ≤ s.length)
    (h : (bitCast64 s &&& 0x8080808080808080) |||
      (bitCast64 (s.drop 8) &&& 0x8080808080808080) = 0) :
    ∀ b ∈ s.take 16, b < 128 := by
  obtain ⟨hw1, hw2⟩ := lor_zero_split h
  have hbd : ∀ i, i < 8 → s.getD i 0 < 256 := fun i _ => bytes_getD hb i
  have hbd2 : ∀ i, i < 8 → (s.drop 8).getD i 0 < 256 := fun i _ => bytes_getD (by
    intro x hx; exact hb x (List.mem_of_mem_drop hx)) i
  have hlow : ∀ k, k < 8 → s.getD k 0 < 128 := fun k hk => high_mask_byte s hbd hw1 k hk
  have hhigh : ∀ k, k < 8 → s.getD (8 + k) 0 < 128 := by
    intro k hk
    have := high_mask_byte (s.drop 8) hbd2 hw2 k hk
    rwa [getD_drop] at this
  intro b hbm
  obtain ⟨i, hi, rfl⟩ := List.getElem_of_mem hbm
  rw [List.length_take] at hi
  have hi16 : i < 16 := lt_of_lt_of_le hi (min_le_left _ _)
  have hilen : i < s.length := lt_of_lt_of_le hi (min_le_right _ _)
  rw [List.getElem_take]
  rcases Nat.lt_or_ge i 8 with h8 | h8
  · have := hlow i h8
    rwa [List.getD_eq_getElem _ _ hilen] at this
  · have := hhigh (i - 8) (by omega)
    rw [show 8 + (i - 8) = i by omega] at this
    rwa [List.getD_eq_getElem _ _ hilen] at this

theorem validF_eq_simple : ∀ (fuel : Nat) (s : List Nat), s.length < fuel →
    (∀ b ∈ s, b < 256) → isValidUtf8F fuel s = isValidUtf8Simple s := by
  intro fuel
  induction fuel with
  | zero => intro s h hb; omega
  | succ fuel ih =>
    intro s hlen hb
    simp only [isValidUtf8F]
    by_cases hemp : s.isEmpty
    · rw [if_pos hemp]
      rw [List.isEmpty_iff.mp hemp, simple_nil]
    · rw [if_neg hemp]
      by_cases hfast : 16 ≤ s.length ∧
          ((bitCast64 s &&& 0x8080808080808080) |||
            (bitCast64 (s.drop 8) &&& 0x8080808080808080)) = 0
      · rw [if_pos hfast]
        have hasc : ∀ b ∈ s.take 16, b < 128 := fastpath_ascii s hb hfast.1 hfast.2
        rw [ih (s.drop 16) (by simp only [List.length_drop]; omega)
          (fun b hbm => hb b (List.mem_of_mem_drop hbm))]
        conv_rhs => rw [← List.take_append_drop 16 s]
        rw [simple_ascii_peel _ _ hasc]
      · rw [if_neg hfast]
        rcases hW : asciiWhile s with _ | t
        · simp only [hW]
          have hall : ∀ b ∈ s, b < 128 :=
            fun b hbm => (byteF1 b (hb b hbm)).mp (asciiWhile_none_all hW b hbm)
          have h2 : isValidUtf8Simple s = true := by
            have hp := simple_ascii_peel s [] hall
            rw [List.append_nil] at hp
            rw [hp, simple_nil]
          rw [h2]
        · simp only [hW]
          obtain ⟨pre, hs, hpre, b, t', ht, hbbit⟩ := asciiWhile_some_decomp hW
          subst ht
          have hbt : ∀ x ∈ b :: t', x < 256 := by
            intro x hx
            exact hb x (hs ▸ List.mem_append_right pre hx)
          have hb0 : b < 256 := hbt b (by simp)
          have hbge : 128 ≤ b := by
            rcases Nat.lt_or_ge b 128 with h | h
            · exact absurd ((byteF1 b hb0).mpr h) hbbit
            · exact h
          have hpre128 : ∀ x ∈ pre, x < 128 := by
            intro x hx
            have hx256 : x < 256 := hb x (hs ▸ List.mem_append_left _ hx)
            exact (byteF1 x hx256).mp (hpre x hx)
          conv_rhs => rw [hs, simple_ascii_peel _ _ hpre128]
          -- now: classification on (b :: t') against isValidUtf8Simple (b :: t')
          have hbt' : ∀ x ∈ t', x < 256 := fun x hx => hbt x (by simp [hx])
          have hc0 : ∀ i, t'.getD i 0 < 256 := fun i => bytes_getD hbt' i
          have hlent : (b :: t').length ≤ s.length := by
            rw [hs, List.length_append]; omega
          have g0 : (b :: t').getD 0 0 = b := rfl
          have g1 : (b :: t').getD 1 0 = t'.getD 0 0 := rfl
          have g2 : (b :: t').getD 2 0 = t'.getD 1 0 := rfl
          have g3 : (b :: t').getD 3 0 = t'.getD 2 0 := rfl
          have hihtail : ∀ k, 1 ≤ k → k ≤ (b :: t').length →
              isValidUtf8F fuel ((b :: t').drop k) = isValidUtf8Simple ((b :: t').drop k) := by
            intro k hk1 hk2
            refine ih _ ?_ (fun x hx => hbt x (List.mem_of_mem_drop hx))
            simp only [List.length_drop]
            omega
          rw [isValidUtf8Simple.eq_def]
          simp only [g0, g1, g2, g3]
          rw [if_neg (by simp : ¬((b :: t').length = 0))]
          rw [if_neg (by omega : ¬ b < 0x80)]
          by_cases hc2 : (b &&& 0x60) = 0x40
          · have hrange : 0xC0 ≤ b ∧ b ≤ 0xDF := (byteF2 b hb0 hbge).mp hc2
            rw [if_pos hc2, if_pos hrange]
            have hcont := byteF5 (t'.getD 0 0) (hc0 0)
            have hovl := byteF6 b hb0
            by_cases hg : 2 ≤ (b :: t').length ∧ 0x80 ≤ t'.getD 0 0 ∧ t'.getD 0 0 ≤ 0xBF ∧
                0xC2 ≤ b
            · rw [dif_pos hg]
              rw [if_neg (by
                push_neg
                refine ⟨by omega, ?_, ?_⟩
                · rw [hcont]; exact ⟨hg.2.1, hg.2.2.1⟩
                · intro hcon
                  rw [hovl] at hcon
                  omega)]
              exact hihtail 2 (by omega) hg.1
            · rw [dif_neg hg]
              rw [if_pos (by
                by_contra hno
                push_neg at hno
                obtain ⟨hn1, hn2, hn3⟩ := hno
                have hn3' : ¬(b = 0xC0 ∨ b = 0xC1) := fun hcc => hn3 (hovl.mpr hcc)
                exact hg ⟨by omega, (hcont.mp hn2).1, (hcont.mp hn2).2, by omega⟩)]
          · have hnr : ¬(0xC0 ≤ b ∧ b ≤ 0xDF) := fun hr => hc2 ((byteF2 b hb0 hbge).mpr hr)
            rw [if_neg hc2, if_neg hnr]
            by_cases hc3 : (b &&& 0xf0) = 0xe0
            · have hrange : 0xE0 ≤ b ∧ b ≤ 0xEF := (byteF3 b hb0).mp hc3
              rw [if_pos hc3, if_pos hrange]
              have hcont1 := byteF5 (t'.getD 0 0) (hc0 0)
              have hcont2 := byteF5 (t'.getD 1 0) (hc0 1)
              have hE0 := byteF7 (t'.getD 0 0) (hc0 0)
              have hED := byteF8 (t'.getD 0 0) (hc0 0)
              by_cases hg : 3 ≤ (b :: t').length ∧ (0x80 ≤ t'.getD 0 0 ∧ t'.getD 0 0 ≤ 0xBF) ∧
                  (0x80 ≤ t'.getD 1 0 ∧ t'.getD 1 0 ≤ 0xBF) ∧
                  ¬(b = 0xE0 ∧ t'.getD 0 0 ≤ 0x9F) ∧ ¬(b = 0xED ∧ 0xA0 ≤ t'.getD 0 0)
              · rw [dif_pos hg]
                rw [if_neg (by
                  push_neg
                  refine ⟨by omega, ?_, ?_, ?_, ?_⟩
                  · rw [hcont1]; exact hg.2.1
                  · rw [hcont2]; exact hg.2.2.1
                  · rintro rfl
                    intro hcontr
                    exact hg.2.2.2.1 ⟨rfl, by rw [hE0] at hcontr; omega⟩
                  · rintro rfl
                    intro hcontr
                    exact hg.2.2.2.2 ⟨rfl, by rw [hED] at hcontr; omega⟩)]
                exact hihtail 3 (by omega) hg.1
              · rw [dif_neg hg]
                rw [if_pos (by
                  by_contra hno
                  push_neg at hno
                  obtain ⟨hn1, hn2, hn3, hn4, hn5⟩ := hno
                  refine hg ⟨by omega, hcont1.mp hn2, hcont2.mp hn3, ?_, ?_⟩
                  · rintro ⟨rfl, hle⟩
                    exact hn4 rfl (hE0.mpr ⟨(hcont1.mp hn2).1, hle⟩)
                  · rintro ⟨rfl, hge⟩
                    exact hn5 rfl (hED.mpr ⟨hge, (hcont1.mp hn2).2⟩))]
            · have hnr3 : ¬(0xE0 ≤ b ∧ b ≤ 0xEF) := fun hr => hc3 ((byteF3 b hb0).mpr hr)
              rw [if_neg hc3, if_neg hnr3]
              by_cases hc4 : (b &&& 0xf8) = 0xf0
              · have hrange : 0xF0 ≤ b ∧ b ≤ 0xF7 := (byteF4 b hb0).mp hc4
                rw [if_pos hc4]
                by_cases hb4 : b ≤ 0xF4
                · rw [if_pos (⟨hrange.1, hb4⟩ : 0xF0 ≤ b ∧ b ≤ 0xF4)]
                  have hcont1 := byteF5 (t'.getD 0 0) (hc0 0)
                  have hcont2 := byteF5 (t'.getD 1 0) (hc0 1)
                  have hcont3 := byteF5 (t'.getD 2 0) (hc0 2)
                  have hF0 := byteF9 (t'.getD 0 0) (hc0 0)
                  by_cases hg : 4 ≤ (b :: t').length ∧
                      (0x80 ≤ t'.getD 0 0 ∧ t'.getD 0 0 ≤ 0xBF) ∧
                      (0x80 ≤ t'.getD 1 0 ∧ t'.getD 1 0 ≤ 0xBF) ∧
                      (0x80 ≤ t'.getD 2 0 ∧ t'.getD 2 0 ≤ 0xBF) ∧
                      ¬(b = 0xF0 ∧ t'.getD 0 0 ≤ 0x8F) ∧ ¬(b = 0xF4 ∧ 0x8F < t'.getD 0 0)
                  · rw [dif_pos hg]
                    rw [if_neg (by
                      push_neg
                      refine ⟨by omega, ?_, ?_, ?_, ?_, ?_, by omega⟩
                      · rw [hcont1]; exact hg.2.1
                      · rw [hcont2]; exact hg.2.2.1
                      · rw [hcont3]; exact hg.2.2.2.1
                      · rintro rfl
                        intro hcontr
                        exact hg.2.2.2.2.1 ⟨rfl, by rw [hF0] at hcontr; omega⟩
                      · rintro rfl
                        have hlast := hg.2.2.2.2.2
                        omega)]
                    exact hihtail 4 (by omega) hg.1
                  · rw [dif_neg hg]
                    rw [if_pos (by
                      by_contra hno
                      push_neg at hno
                      obtain ⟨hn1, hn2, hn3, hn4, hn5, hn6, hn7⟩ := hno
                      refine hg ⟨by omega, hcont1.mp hn2, hcont2.mp hn3, hcont3.mp hn4, ?_, ?_⟩
                      · rintro ⟨rfl, hle⟩
                        exact hn5 rfl (hF0.mpr ⟨(hcont1.mp hn2).1, hle⟩)
                      · rintro ⟨rfl, hgt⟩
                        have := hn6 rfl
                        omega)]
                · rw [if_neg (by omega : ¬(0xF0 ≤ b ∧ b ≤ 0xF4))]
                  rw [if_pos (by
                    right; right; right; right; right; right; omega)]
              · have hnr4 : ¬(0xF0 ≤ b ∧ b ≤ 0xF4) := by
                  intro hr
                  exact hc4 ((byteF4 b hb0).mpr ⟨hr.1, by omega⟩)
                rw [if_neg hc4, if_neg hnr4]

theorem simple_implies_wf : ∀ (n : Nat) (s : List Nat), s.length ≤ n →
    isValidUtf8Simple s = true → Utf8Wf s := by
  intro n
  induction n with
  | zero =>
    intro s h _
    have hs : s = [] := List.eq_nil_of_length_eq_zero (by omega)
    rw [hs]
    exact .nil
  | succ n ih =>
    intro s hlen hv
    cases s with
    | nil => exact .nil
    | cons b t =>
      rw [isValidUtf8Simple.eq_def] at hv
      rw [if_neg (by simp : ¬((b :: t).length = 0))] at hv
      have g0 : (b :: t).getD 0 0 = b := rfl
      have g1 : (b :: t).getD 1 0 = t.getD 0 0 := rfl
      have g2 : (b :: t).getD 2 0 = t.getD 1 0 := rfl
      have g3 : (b :: t).getD 3 0 = t.getD 2 0 := rfl
      simp only [g0, g1, g2, g3] at hv
      by_cases h1 : b < 0x80
      · rw [if_pos h1] at hv
        have hwf := ih t (by simp at hlen; omega) (by simpa using hv)
        have henc : utf8Encode b = [b] := by rw [utf8Encode, if_pos h1]
        have hres := Utf8Wf.cons b t ⟨by omega, by omega⟩ hwf
        rwa [henc, List.singleton_append] at hres
      · rw [if_neg h1] at hv
        by_cases hr2 : 0xC0 ≤ b ∧ b ≤ 0xDF
        · rw [if_pos hr2] at hv
          by_cases hg : 2 ≤ (b :: t).length ∧ 0x80 ≤ t.getD 0 0 ∧ t.getD 0 0 ≤ 0xBF ∧ 0xC2 ≤ b
          · rw [dif_pos hg] at hv
            cases t with
            | nil => simp at hg
            | cons c1 t2 =>
              have hc1 : (c1 :: t2).getD 0 0 = c1 := rfl
              rw [hc1] at hg
              have hwf := ih t2 (by simp at hlen ⊢; omega) (by simpa using hv)
              have henc : utf8Encode ((b - 0xC0) * 64 + (c1 - 0x80)) = [b, c1] := by
                rw [utf8Encode, if_neg (by omega), if_pos (by omega)]
                simp only [List.cons.injEq, and_true]
                omega
              have hres := Utf8Wf.cons ((b - 0xC0) * 64 + (c1 - 0x80)) t2
                ⟨by omega, by omega⟩ hwf
              rwa [henc] at hres
          · rw [dif_neg hg] at hv
            exact absurd hv (by simp)
        · rw [if_neg hr2] at hv
          by_cases hr3 : 0xE0 ≤ b ∧ b ≤ 0xEF
          · rw [if_pos hr3] at hv
            by_cases hg : 3 ≤ (b :: t).length ∧ (0x80 ≤ t.getD 0 0 ∧ t.getD 0 0 ≤ 0xBF) ∧
                (0x80 ≤ t.getD 1 0 ∧ t.getD 1 0 ≤ 0xBF) ∧
                ¬(b = 0xE0 ∧ t.getD 0 0 ≤ 0x9F) ∧ ¬(b = 0xED ∧ 0xA0 ≤ t.getD 0 0)
            · rw [dif_pos hg] at hv
              match t, hg with
              | c1 :: c2 :: t3, hg =>
                have hc1 : (c1 :: c2 :: t3).getD 0 0 = c1 := rfl
                have hc2 : (c1 :: c2 :: t3).getD 1 0 = c2 := rfl
                rw [hc1, hc2] at hg
                have hwf := ih t3 (by simp at hlen ⊢; omega) (by simpa using hv)
                have henc : utf8Encode ((b - 0xE0) * 4096 + (c1 - 0x80) * 64 + (c2 - 0x80)) =
                    [b, c1, c2] := by
                  rw [utf8Encode, if_neg (by omega), if_neg (by omega), if_pos (by omega)]
                  simp only [List.cons.injEq, and_true]
                  omega
                have hres := Utf8Wf.cons ((b - 0xE0) * 4096 + (c1 - 0x80) * 64 + (c2 - 0x80)) t3
                  ⟨by omega, by omega⟩ hwf
                rwa [henc] at hres
            · rw [dif_neg hg] at hv
              exact absurd hv (by simp)
          · rw [if_neg hr3] at hv
            by_cases hr4 : 0xF0 ≤ b ∧ b ≤ 0xF4
            · rw [if_pos hr4] at hv
              by_cases hg : 4 ≤ (b :: t).length ∧ (0x80 ≤ t.getD 0 0 ∧ t.getD 0 0 ≤ 0xBF) ∧
                  (0x80 ≤ t.getD 1 0 ∧ t.getD 1 0 ≤ 0xBF) ∧
                  (0x80 ≤ t.getD 2 0 ∧ t.getD 2 0 ≤ 0xBF) ∧
                  ¬(b = 0xF0 ∧ t.getD 0 0 ≤ 0x8F) ∧ ¬(b = 0xF4 ∧ 0x8F < t.getD 0 0)
              · rw [dif_pos hg] at hv
                match t, hg with
                | c1 :: c2 :: c3 :: t4, hg =>
                  have hc1 : (c1 :: c2 :: c3 :: t4).getD 0 0 = c1 := rfl
                  have hc2 : (c1 :: c2 :: c3 :: t4).getD 1 0 = c2 := rfl
                  have hc3 : (c1 :: c2 :: c3 :: t4).getD 2 0 = c3 := rfl
                  rw [hc1, hc2, hc3] at hg
                  have hwf := ih t4 (by simp at hlen ⊢; omega) (by simpa using hv)
                  have henc : utf8Encode
                      ((b - 0xF0) * 262144 + (c1 - 0x80) * 4096 + (c2 - 0x80) * 64 + (c3 - 0x80)) =
                      [b, c1, c2, c3] := by
                    rw [utf8Encode, if_neg (by omega), if_neg (by omega), if_neg (by omega)]
                    simp only [List.cons.injEq, and_true]
                    omega
                  have hres := Utf8Wf.cons
                    ((b - 0xF0) * 262144 + (c1 - 0x80) * 4096 + (c2 - 0x80) * 64 + (c3 - 0x80)) t4
                    ⟨by omega, by omega⟩ hwf
                  rwa [henc] at hres
              · rw [dif_neg hg] at hv
                exact absurd hv (by simp)
            · rw [if_neg hr4] at hv
              exact absurd hv (by simp)

theorem wf_implies_simple : ∀ {s : List Nat}, Utf8Wf s → isValidUtf8Simple s = true := by
  intro s h
  induction h with
  | nil => exact simple_nil
  | cons c rest hsc _ ih =>
    obtain ⟨hmax, hsur⟩ := hsc
    by_cases h1 : c < 0x80
    · rw [show utf8Encode c = [c] from by rw [utf8Encode, if_pos h1], List.singleton_append,
        simple_ascii c rest h1]
      exact ih
    · by_cases h2 : c < 0x800
      · rw [show utf8Encode c = [0xC0 + c / 64, 0x80 + c % 64] from by
          rw [utf8Encode, if_neg h1, if_pos h2]]
        rw [List.cons_append, List.cons_append, List.nil_append]
        rw [isValidUtf8Simple.eq_def]
        rw [if_neg (by simp : ¬(((0xC0 + c / 64) :: (0x80 + c % 64) :: rest).length = 0))]
        have g0 : ((0xC0 + c / 64) :: (0x80 + c % 64) :: rest).getD 0 0 = 0xC0 + c / 64 := rfl
        have g1 : ((0xC0 + c / 64) :: (0x80 + c % 64) :: rest).getD 1 0 = 0x80 + c % 64 := rfl
        simp only [g0, g1]
        rw [if_neg (by omega), if_pos (by omega), dif_pos (by
          refine ⟨by simp, by omega, by omega, by omega⟩)]
        simpa using ih
      · by_cases h3 : c < 0x10000
        · rw [show utf8Encode c = [0xE0 + c / 4096, 0x80 + c / 64 % 64, 0x80 + c % 64] from by
            rw [utf8Encode, if_neg h1, if_neg h2, if_pos h3]]
          rw [List.cons_append, List.cons_append, List.cons_append, List.nil_append]
          rw [isValidUtf8Simple.eq_def]
          rw [if_neg (by simp :
            ¬(((0xE0 + c / 4096) :: (0x80 + c / 64 % 64) :: (0x80 + c % 64) :: rest).length = 0))]
          have g0 : ((0xE0 + c / 4096) :: (0x80 + c / 64 % 64) :: (0x80 + c % 64) :: rest).getD 0 0 =
            0xE0 + c / 4096 := rfl
          have g1 : ((0xE0 + c / 4096) :: (0x80 + c / 64 % 64) :: (0x80 + c % 64) :: rest).getD 1 0 =
            0x80 + c / 64 % 64 := rfl
          have g2 : ((0xE0 + c / 4096) :: (0x80 + c / 64 % 64) :: (0x80 + c % 64) :: rest).getD 2 0 =
            0x80 + c % 64 := rfl
          simp only [g0, g1, g2]
          rw [if_neg (by omega), if_neg (by omega), if_pos (by omega), dif_pos (by
            refine ⟨by simp, ⟨by omega, by omega⟩, ⟨by omega, by omega⟩, ?_, ?_⟩
            · rintro ⟨hE0, hle⟩
              omega
            · rintro ⟨hED, hge⟩
              omega)]
          simpa using ih
        · rw [show utf8Encode c =
              [0xF0 + c / 262144, 0x80 + c / 4096 % 64, 0x80 + c / 64 % 64, 0x80 + c % 64] from by
            rw [utf8Encode, if_neg h1, if_neg h2, if_neg h3]]
          rw [List.cons_append, List.cons_append, List.cons_append, List.cons_append,
            List.nil_append]
          rw [isValidUtf8Simple.eq_def]
          rw [if_neg (by simp : ¬(((0xF0 + c / 262144) :: (0x80 + c / 4096 % 64) ::
            (0x80 + c / 64 % 64) :: (0x80 + c % 64) :: rest).length = 0))]
          have g0 : ((0xF0 + c / 262144) :: (0x80 + c / 4096 % 64) ::
            (0x80 + c / 64 % 64) :: (0x80 + c % 64) :: rest).getD 0 0 = 0xF0 + c / 262144 := rfl
          have g1 : ((0xF0 + c / 262144) :: (0x80 + c / 4096 % 64) ::
            (0x80 + c / 64 % 64) :: (0x80 + c % 64) :: rest).getD 1 0 = 0x80 + c / 4096 % 64 := rfl
          have g2 : ((0xF0 + c / 262144) :: (0x80 + c / 4096 % 64) ::
            (0x80 + c / 64 % 64) :: (0x80 + c % 64) :: rest).getD 2 0 = 0x80 + c / 64 % 64 := rfl
          have g3 : ((0xF0 + c / 262144) :: (0x80 + c / 4096 % 64) ::
            (0x80 + c / 64 % 64) :: (0x80 + c % 64) :: rest).getD 3 0 = 0x80 + c % 64 := rfl
          simp only [g0, g1, g2, g3]
          rw [if_neg (by omega), if_neg (by omega), if_neg (by omega), if_pos (by omega),
            dif_pos (by
              refine ⟨by simp, ⟨by omega, by omega⟩, ⟨by omega, by omega⟩, ⟨by omega, by omega⟩,
                ?_, ?_⟩
              · rintro ⟨hF0, hle⟩
                omega
              · rintro ⟨hF4, hgt⟩
                omega)]
          simpa using ih


theorem setOpCodeAt_opCodeAt (st : WebSocketState) (i : Int) (v : Nat) :
    (st.setOpCodeAt i v).opCodeAt i = v := by
  unfold WebSocketState.setOpCodeAt WebSocketState.opCodeAt
  split <;> simp_all

/-- C9.  When `refusePayloadLength` rejects a non-Continuation frame, the
frame's header has already been recorded: the opcode was pushed onto the op
stack and `lastFin` was set to the frame's FIN bit; the parser then reports
`ERR_TOO_BIG_MESSAGE` (and only that — no fragment), returns true, and the
state is not restored. -/
theorem refuse_after_state_update (isServer : Bool) (impl : Impl) (MESSAGE_HEADER payLength : Nat)
    (src : List Nat) (st : WebSocketState)
    (hop : getOpCode src ≠ 0)
    (hok : ¬(st.opStack = 1 ∨ (¬st.lastFin ∧ getOpCode src < 2)))
    (hrefuse : impl.refusePayloadLength payLength = true) :
    (consumeMessage isServer impl MESSAGE_HEADER payLength src st).ret = true ∧
    (consumeMessage isServer impl MESSAGE_HEADER payLength src st).events =
      [.forceClose ERR_TOO_BIG_MESSAGE] ∧
    (consumeMessage isServer impl MESSAGE_HEADER payLength src st).st.opStack =
      st.opStack + 1 ∧
    (consumeMessage isServer impl MESSAGE_HEADER payLength src st).st.opCodeAt
      (st.opStack + 1) = getOpCode src ∧
    (consumeMessage isServer impl MESSAGE_HEADER payLength src st).st.lastFin = isFin src := by
  have hres : consumeMessage isServer impl MESSAGE_HEADER payLength src st =
      ⟨true, src,
        { ({ st with opStack := st.opStack + 1 } : WebSocketState).setOpCodeAt
            (st.opStack + 1) (getOpCode src) with lastFin := isFin src },
        [.forceClose ERR_TOO_BIG_MESSAGE]⟩ := by
    unfold consumeMessage
    rw [if_pos hop, if_neg hok]
    unfold consumeMessageRest
    rw [if_pos hrefuse]
  rw [hres]
  unfold WebSocketState.setOpCodeAt WebSocketState.opCodeAt
  split <;> simp_all

/-- Witness for C9 at a concrete input: a Text frame whose 200-byte payload
the handler refuses. -/
theorem refuse_after_state_update_witness :
    (consumeMessage false ⟨fun n => 125 < n, false⟩ 4 200 [0x81, 126, 0, 200]
        freshState).ret = true ∧
    (consumeMessage false ⟨fun n => 125 < n, false⟩ 4 200 [0x81, 126, 0, 200]
        freshState).events = [.forceClose ERR_TOO_BIG_MESSAGE] ∧
    (consumeMessage false ⟨fun n => 125 < n, false⟩ 4 200 [0x81, 126, 0, 200]
        freshState).st.opStack = freshState.opStack + 1 ∧
    (consumeMessage false ⟨fun n => 125 < n, false⟩ 4 200 [0x81, 126, 0, 200]
        freshState).st.opCodeAt (freshState.opStack + 1) =
      getOpCode [0x81, 126, 0, 200] ∧
    (consumeMessage false ⟨fun n => 125 < n, false⟩ 4 200 [0x81, 126, 0, 200]
        freshState).st.lastFin = isFin [0x81, 126, 0, 200] :=
  refuse_after_state_update false ⟨fun n => 125 < n, false⟩ 4 200 [0x81, 126, 0, 200] freshState
    (by decide) (by decide) (by decide)

/-- C3 counterexample.  The claim says a Binary (2) frame arriving while
`last_fin = false` triggers `force_close(ERR_PROTOCOL)` with no
`handle_fragment` call for it.  Feeding (client side) a Text frame with
FIN = 0 and then a Binary frame, the parser instead delivers the Binary
frame's payload to `handle_fragment` and never calls `force_close`. -/
theorem binary_mid_message_not_closed :
    (consume false implDefault [0x01, 0x01, 0x41, 0x82, 0x01, 0x42] freshState).2 =
      [.fragment [0x41] 0 TEXT false, .fragment [0x42] 0 BINARY true] ∧
    hasStop (consume false implDefault [0x01, 0x01, 0x41, 0x82, 0x01, 0x42] freshState).2
      = false := by
  constructor <;> rfl

/-- C3 (amended).  Whenever `consumeMessage` handles a frame whose header
arrived while `last_fin = false` and whose opcode is Text (1), it reports
`ERR_PROTOCOL`, makes no `handle_fragment` call, and leaves the state
unchanged; a Binary (2) frame is not rejected by this check. -/
theorem text_mid_message_closed (isServer : Bool) (impl : Impl) (MESSAGE_HEADER payLength : Nat)
    (src : List Nat) (st : WebSocketState)
    (hfin : st.lastFin = false) (hop : getOpCode src = TEXT) :
    consumeMessage isServer impl MESSAGE_HEADER payLength src st =
      ⟨true, src, st, [.forceClose ERR_PROTOCOL]⟩ := by
  unfold consumeMessage
  rw [if_pos (by simp [hop, TEXT]), if_pos (by simp [hfin, hop, TEXT])]

/-- Witness for the amended C3 at a concrete input. -/
theorem text_mid_message_closed_witness :
    consumeMessage false implDefault 2 1 [0x01, 0x01, 0x42]
        { freshState with lastFin := false, opStack := 0 } =
      ⟨true, [0x01, 0x01, 0x42], { freshState with lastFin := false, opStack := 0 },
        [.forceClose ERR_PROTOCOL]⟩ :=
  text_mid_message_closed false implDefault 2 1 [0x01, 0x01, 0x42]
    { freshState with lastFin := false, opStack := 0 } (by decide) (by decide)

/-- C4 counterexample.  The claim says `op_stack ∈ {−1, 0}` at every return
from `consume`.  One `consume` call (client side) with a Text FIN = 0 frame
followed by a Binary FIN = 0 frame returns with `op_stack = 1`. -/
theorem opStack_one_observable :
    (consume false implDefault [0x01, 0x01, 0x41, 0x02, 0x01, 0x42] freshState).1.opStack = 1 ∧
    ¬((consume false implDefault [0x01, 0x01, 0x41, 0x02, 0x01, 0x42] freshState).1.opStack = -1 ∨
      (consume false implDefault [0x01, 0x01, 0x41, 0x02, 0x01, 0x42] freshState).1.opStack = 0) := by
  constructor
  · rfl
  · decide

/-- C5 counterexample.  The claim expects the second `handle_fragment` call
(for the Continuation frame of the fragmented "Hello") to carry opcode
Continuation (0); the parser hands `handle_fragment` the opcode stored on
the op stack, which is Text (1). -/
theorem fragmented_hello_opcode_not_continuation :
    ¬((runChunks false implDefault freshState
        [[0x01, 0x03, 0x48, 0x65, 0x6C], [0x80, 0x02, 0x6C, 0x6F]]).2 =
      [.fragment [0x48, 0x65, 0x6C] 0 TEXT false,
       .fragment [0x6C, 0x6F] 0 CONTINUATION true]) := by
  decide

/-- C5 (amended).  Feeding the client parser `01 03 48 65 6C` then
`80 02 6C 6F` from a fresh state produces exactly two `handle_fragment`
calls: FIN = 0 then FIN = 1, both with the op-stack opcode Text (1),
concatenated payload "Hello", and `op_stack = −1` afterwards. -/
theorem fragmented_hello_trace :
    (runChunks false implDefault freshState
        [[0x01, 0x03, 0x48, 0x65, 0x6C], [0x80, 0x02, 0x6C, 0x6F]]).2 =
      [.fragment [0x48, 0x65, 0x6C] 0 TEXT false, .fragment [0x6C, 0x6F] 0 TEXT true] ∧
    (runChunks false implDefault freshState
        [[0x01, 0x03, 0x48, 0x65, 0x6C], [0x80, 0x02, 0x6C, 0x6F]]).1.opStack = -1 := by
  constructor <;> rfl

/-- C10.  Move-constructing or move-assigning an `any_invocable` from a
non-empty source leaves the source empty (it compares equal to `nullptr`
and its `operator bool` is false) and the target holding the source's
callable. -/
theorem anyInvocable_move_semantics {C : Type} (f : C) (lhs rhs : AnyInvocable C)
    (hstore : rhs.storage = some f) (hhandle : rhs.hasHandle = true) :
    ((rhs.moveConstruct).1.storage = some f ∧ (rhs.moveConstruct).1.opBool = true ∧
      (rhs.moveConstruct).2.eqNull = true ∧ (rhs.moveConstruct).2.opBool = false) ∧
    ((lhs.moveAssign rhs).1.storage = some f ∧ (lhs.moveAssign rhs).1.opBool = true ∧
      (lhs.moveAssign rhs).2.eqNull = true ∧ (lhs.moveAssign rhs).2.opBool = false) := by
  by_cases hl : lhs.hasHandle <;>
    simp [AnyInvocable.moveConstruct, AnyInvocable.moveAssign, AnyInvocable.swap,
      AnyInvocable.opBool, AnyInvocable.eqNull, hstore, hhandle, hl]

/-- C7.  `isValidUtf8` returns true exactly on byte sequences that are
well-formed UTF-8 per RFC 3629: concatenations of shortest-form encodings of
scalar values at most U+10FFFF and outside the surrogate range. -/
theorem isValidUtf8_rfc3629 (s : List Nat) (hb : ∀ b ∈ s, b < 256) :
    isValidUtf8 s = true ↔ Utf8Wf s := by
  unfold isValidUtf8
  rw [validF_eq_simple (s.length + 1) s (by omega) hb]
  exact ⟨simple_implies_wf s.length s le_rfl, wf_implies_simple⟩

/-- Witness for C7: "H", then "é", then "€" (a 1-, 2- and 3-byte character). -/
theorem isValidUtf8_rfc3629_witness :
    (∀ b ∈ [0x48, 0xC3, 0xA9, 0xE2, 0x82, 0xAC], (b : Nat) < 256) ∧
    (isValidUtf8 [0x48, 0xC3, 0xA9, 0xE2, 0x82, 0xAC] = true ↔
      Utf8Wf [0x48, 0xC3, 0xA9, 0xE2, 0x82, 0xAC]) :=
  ⟨by decide, isValidUtf8_rfc3629 _ (by decide)⟩

/-- C6.  `parseClosePayload` returns `{1005, empty}` for payloads shorter
than 2 bytes; otherwise it reads a big-endian 16-bit code and the remaining
bytes as the reason, and rejects with `{1006, ERR_INVALID_CLOSE_PAYLOAD}`
exactly when the code is out of range (`< 1000`, `> 4999`, `1012–3999`,
`1004–1006`) or the reason is not valid UTF-8. -/
theorem parseClosePayload_spec (src : List Nat)
    (h0 : src.getD 0 0 < 256) (h1 : src.getD 1 0 < 256) :
    parseClosePayload src =
      if src.length < 2 then ⟨1005, [], 0⟩
      else if 256 * src.getD 0 0 + src.getD 1 0 < 1000 ∨
          4999 < 256 * src.getD 0 0 + src.getD 1 0 ∨
          (1012 ≤ 256 * src.getD 0 0 + src.getD 1 0 ∧
            256 * src.getD 0 0 + src.getD 1 0 ≤ 3999) ∨
          (1004 ≤ 256 * src.getD 0 0 + src.getD 1 0 ∧
            256 * src.getD 0 0 + src.getD 1 0 ≤ 1006) ∨
          ¬isValidUtf8 (src.drop 2) then
        ⟨1006, strBytes ERR_INVALID_CLOSE_PAYLOAD, (strBytes ERR_INVALID_CLOSE_PAYLOAD).length⟩
      else ⟨256 * src.getD 0 0 + src.getD 1 0, src.drop 2, src.length - 2⟩ := by
  have hc : condByteSwap16 (bitCast16 src) = 256 * src.getD 0 0 + src.getD 1 0 := by
    unfold condByteSwap16 bitCast16
    omega
  unfold parseClosePayload
  by_cases hlen : 2 ≤ src.length
  · rw [if_pos hlen, if_neg (by omega : ¬src.length < 2)]
    simp only [hc]
    split_ifs with hA hB hB <;> first
      | rfl
      | (exfalso
         rcases hA with h | h | h | h | h
         · exact hB (Or.inl h)
         · exact hB (Or.inr (Or.inl h))
         · exact hB (Or.inr (Or.inr (Or.inl (by omega))))
         · exact hB (Or.inr (Or.inr (Or.inr (Or.inl (by omega)))))
         · exact hB (Or.inr (Or.inr (Or.inr (Or.inr h)))))
      | (exfalso
         rcases hB with h | h | h | h | h
         · exact hA (Or.inl h)
         · exact hA (Or.inr (Or.inl h))
         · exact hA (Or.inr (Or.inr (Or.inl (by omega))))
         · exact hA (Or.inr (Or.inr (Or.inr (Or.inl (by omega)))))
         · exact hA (Or.inr (Or.inr (Or.inr (Or.inr h)))))
  · rw [if_neg hlen, if_pos (by omega : src.length < 2)]

/-- Witness for C6: the close payload `03 EC` (code 1004) is rejected. -/
theorem parseClosePayload_spec_witness :
    parseClosePayload [0x03, 0xEC] =
      ⟨1006, strBytes ERR_INVALID_CLOSE_PAYLOAD, (strBytes ERR_INVALID_CLOSE_PAYLOAD).length⟩ := by
  rw [parseClosePayload_spec [0x03, 0xEC] (by decide) (by decide)]
  norm_num

/-- C8.  `formatMessage` writes and returns `H + length` bytes on a server
and `H + 4 + length` bytes on a client, where `H` is 2/4/10 according to
`reportedLength`; on a server with `reportedLength = length` the return
value is `messageFrameSize length`. -/
theorem formatMessage_size (isServer : Bool) (randomValue : Nat) (src : List Nat)
    (length opCode reportedLength : Nat) (compressed fin : Bool) :
    (formatMessage isServer randomValue src length opCode reportedLength compressed fin).2 =
      (if reportedLength < 126 then 2 else if reportedLength ≤ 0xFFFF then 4 else 10) +
        (if isServer then 0 else 4) + length ∧
    (formatMessage isServer randomValue src length opCode reportedLength compressed fin).1.length =
      (formatMessage isServer randomValue src length opCode reportedLength compressed fin).2 ∧
    (isServer = true → reportedLength = length →
      (formatMessage isServer randomValue src length opCode reportedLength compressed fin).2 =
        messageFrameSize length) := by
  refine ⟨?_, ?_, ?_⟩
  · unfold formatMessage
    cases isServer <;> split_ifs <;> simp_all [UINT16_MAX] <;> omega
  · unfold formatMessage bytesLE readBytes
    cases isServer <;> split_ifs <;>
      simp [List.length_set, List.length_append, List.length_map, List.length_range] <;> omega
  · intro hS hlen
    subst hS hlen
    unfold formatMessage messageFrameSize
    split_ifs <;> simp_all [UINT16_MAX] <;> omega

/-- Witness for C8: a server Text frame with a 5-byte payload. -/
theorem formatMessage_size_witness :
    (formatMessage true 0 [72, 101, 108, 108, 111] 5 1 5 false true).2 = 2 + 0 + 5 ∧
    (formatMessage true 0 [72, 101, 108, 108, 111] 5 1 5 false true).1.length =
      (formatMessage true 0 [72, 101, 108, 108, 111] 5 1 5 false true).2 ∧
    (formatMessage true 0 [72, 101, 108, 108, 111] 5 1 5 false true).2 =
      messageFrameSize 5 :=
  ⟨(formatMessage_size true 0 [72, 101, 108, 108, 111] 5 1 5 false true).1,
   (formatMessage_size true 0 [72, 101, 108, 108, 111] 5 1 5 false true).2.1,
   (formatMessage_size true 0 [72, 101, 108, 108, 111] 5 1 5 false true).2.2 rfl rfl⟩

/-- Witness for C10 at a concrete callable. -/
theorem anyInvocable_move_semantics_witness :
    let rhs : AnyInvocable Nat := ⟨some 42, true⟩
    let lhs : AnyInvocable Nat := ⟨some 7, true⟩
    ((rhs.moveConstruct).1.storage = some 42 ∧ (rhs.moveConstruct).1.opBool = true ∧
      (rhs.moveConstruct).2.eqNull = true ∧ (rhs.moveConstruct).2.opBool = false) ∧
    ((lhs.moveAssign rhs).1.storage = some 42 ∧ (lhs.moveAssign rhs).1.opBool = true ∧
      (lhs.moveAssign rhs).2.eqNull = true ∧ (lhs.moveAssign rhs).2.opBool = false) :=
  anyInvocable_move_semantics 42 ⟨some 7, true⟩ ⟨some 42, true⟩ rfl rfl

/-! ## Projection facts for the state-writing primitives -/

@[simp] theorem setOpCodeAt_opStack (st : WebSocketState) (i : Int) (v : Nat) :
    (st.setOpCodeAt i v).opStack = st.opStack := by
  unfold WebSocketState.setOpCodeAt; split <;> rfl

@[simp] theorem setOpCodeAt_wantsHead (st : WebSocketState) (i : Int) (v : Nat) :
    (st.setOpCodeAt i v).wantsHead = st.wantsHead := by
  unfold WebSocketState.setOpCodeAt; split <;> rfl

@[simp] theorem setOpCodeAt_lastFin (st : WebSocketState) (i : Int) (v : Nat) :
    (st.setOpCodeAt i v).lastFin = st.lastFin := by
  unfold WebSocketState.setOpCodeAt; split <;> rfl

@[simp] theorem setOpCodeAt_spill (st : WebSocketState) (i : Int) (v : Nat) :
    (st.setOpCodeAt i v).spill = st.spill := by
  unfold WebSocketState.setOpCodeAt; split <;> rfl

@[simp] theorem setOpCodeAt_spillLength (st : WebSocketState) (i : Int) (v : Nat) :
    (st.setOpCodeAt i v).spillLength = st.spillLength := by
  unfold WebSocketState.setOpCodeAt; split <;> rfl

@[simp] theorem setOpCodeAt_remainingBytes (st : WebSocketState) (i : Int) (v : Nat) :
    (st.setOpCodeAt i v).remainingBytes = st.remainingBytes := by
  unfold WebSocketState.setOpCodeAt; split <;> rfl

@[simp] theorem setOpCodeAt_mask (st : WebSocketState) (i : Int) (v : Nat) :
    (st.setOpCodeAt i v).mask = st.mask := by
  unfold WebSocketState.setOpCodeAt; split <;> rfl

@[simp] theorem spillExit_opStack (src : List Nat) (st : WebSocketState) :
    (spillExit src st).opStack = st.opStack := by
  unfold spillExit; split <;> rfl

@[simp] theorem spillExit_wantsHead (src : List Nat) (st : WebSocketState) :
    (spillExit src st).wantsHead = st.wantsHead := by
  unfold spillExit; split <;> rfl

@[simp] theorem spillExit_lastFin (src : List Nat) (st : WebSocketState) :
    (spillExit src st).lastFin = st.lastFin := by
  unfold spillExit; split <;> rfl

@[simp] theorem spillExit_remainingBytes (src : List Nat) (st : WebSocketState) :
    (spillExit src st).remainingBytes = st.remainingBytes := by
  unfold spillExit; split <;> rfl

@[simp] theorem spillExit_mask (src : List Nat) (st : WebSocketState) :
    (spillExit src st).mask = st.mask := by
  unfold spillExit; split <;> rfl

/-! ## Op-stack preservation (towards claim C4) -/

theorem consumeMessage_opOk (S : Bool) (impl : Impl) (H pl : Nat) (src : List Nat)
    (st : WebSocketState) (hw : st.wantsHead = true)
    (h1 : st.opStack = -1 ∨ st.opStack = 0 ∨ st.opStack = 1) :
    OpOk (consumeMessage S impl H pl src st).st ∧
    ((consumeMessage S impl H pl src st).ret = false →
      (consumeMessage S impl H pl src st).st.wantsHead = true) := by
  unfold consumeMessage consumeMessageRest OpOk
  split_ifs <;> simp_all [apply_ite WebSocketState.opStack, apply_ite WebSocketState.wantsHead] <;>
    omega

theorem consumeContinuation_opOk (S : Bool) (impl : Impl) (src : List Nat)
    (st : WebSocketState) (h : OpOk st) (hw : st.wantsHead = false) :
    OpOk (consumeContinuation S impl src st).st ∧
    ((consumeContinuation S impl src st).ret = true →
      (consumeContinuation S impl src st).st.wantsHead = true) ∧
    ((consumeContinuation S impl src st).ret = false →
      (consumeContinuation S impl src st).st.wantsHead = false) := by
  obtain ⟨h1, h2⟩ := h
  have h01 := h2 hw
  unfold consumeContinuation OpOk
  split_ifs <;> simp_all <;> omega

/-- A frame branch of the header loop preserves op-stack safety. -/
theorem opOk_step (S : Bool) (impl : Impl) (n H pl : Nat) (src : List Nat)
    (st : WebSocketState)
    (hw : st.wantsHead = true) (h1 : st.opStack = -1 ∨ st.opStack = 0 ∨ st.opStack = 1)
    (ih : ∀ (s : List Nat) (t : WebSocketState), t.wantsHead = true →
      (t.opStack = -1 ∨ t.opStack = 0 ∨ t.opStack = 1) →
      OpOk (parseNextF S impl n s t).1) :
    OpOk (if (consumeMessage S impl H pl src st).ret
      then ((consumeMessage S impl H pl src st).st, (consumeMessage S impl H pl src st).events)
      else ((parseNextF S impl n (consumeMessage S impl H pl src st).buf
              (consumeMessage S impl H pl src st).st).1,
            (consumeMessage S impl H pl src st).events ++
              (parseNextF S impl n (consumeMessage S impl H pl src st).buf
                (consumeMessage S impl H pl src st).st).2)).1 := by
  obtain ⟨hok, hret⟩ := consumeMessage_opOk S impl H pl src st hw h1
  split
  · exact hok
  · next hB => exact ih _ _ (hret (by simpa using hB)) hok.1

theorem parseNextF_opOk (S : Bool) (impl : Impl) : ∀ (fuel : Nat) (src : List Nat)
    (st : WebSocketState), st.wantsHead = true →
    (st.opStack = -1 ∨ st.opStack = 0 ∨ st.opStack = 1) →
    OpOk (parseNextF S impl fuel src st).1 := by
  intro fuel
  induction fuel with
  | zero =>
    intro src st hw h1
    exact ⟨h1, fun hww => by simp [parseNextF, hw] at hww⟩
  | succ n ih =>
    intro src st hw h1
    simp only [parseNextF]
    by_cases hshort : SHORT_MESSAGE_HEADER S ≤ src.length
    · rw [if_pos hshort]
      by_cases hbad : badHeader impl src
      · rw [if_pos hbad]
        exact ⟨h1, fun hww => by simp [hw] at hww⟩
      · rw [if_neg hbad]
        by_cases hp1 : payloadLength src < 126
        · rw [if_pos hp1]
          exact opOk_step S impl n _ _ src st hw h1 ih
        · rw [if_neg hp1]
          by_cases hp2 : payloadLength src = 126
          · rw [if_pos hp2]
            by_cases hm : src.length < MEDIUM_MESSAGE_HEADER S
            · rw [if_pos hm]
              exact ⟨by simpa using h1, fun hww => by simp [hw] at hww⟩
            · rw [if_neg hm]
              exact opOk_step S impl n _ _ src st hw h1 ih
          · rw [if_neg hp2]
            by_cases hl : src.length < LONG_MESSAGE_HEADER S
            · rw [if_pos hl]
              exact ⟨by simpa using h1, fun hww => by simp [hw] at hww⟩
            · rw [if_neg hl]
              exact opOk_step S impl n _ _ src st hw h1 ih
    · rw [if_neg hshort]
      exact ⟨by simpa using h1, fun hww => by simp [hw] at hww⟩

theorem consume_opOk (S : Bool) (impl : Impl) (src : List Nat) (st : WebSocketState)
    (h : OpOk st) : OpOk (consume S impl src st).1 := by
  unfold consume
  by_cases hw : st.wantsHead
  · simp only [hw, if_true]
    exact parseNextF_opOk S impl _ _ _ rfl h.1
  · have hw' : st.wantsHead = false := by simpa using hw
    simp only [hw', Bool.false_eq_true, if_false]
    obtain ⟨hok, hrt, hrf⟩ := consumeContinuation_opOk S impl
      (st.spill.take st.spillLength ++ src)
      { st with wantsHead := false, spill := [], spillLength := 0 }
      ⟨h.1, fun _ => h.2 hw'⟩ rfl
    split
    · next hr => exact parseNextF_opOk S impl _ _ _ (hrt hr) hok.1
    · exact hok

theorem runChunks_opOk (S : Bool) (impl : Impl) : ∀ (chunks : List (List Nat))
    (st : WebSocketState), OpOk st → OpOk (runChunks S impl st chunks).1 := by
  intro chunks
  induction chunks with
  | nil => intro st h; exact h
  | cons c cs ih =>
    intro st h
    simp only [runChunks]
    by_cases hs : hasStop (consume S impl c st).2
    · simp only [hs, if_true]
      exact consume_opOk S impl c st h
    · simp only [hs, if_false, Bool.false_eq_true]
      exact ih _ (consume_opOk S impl c st h)

/-- **C4 (amended).**  At every return from `consume` — equivalently, after
any sequence of `consume` calls from a fresh state, since every prefix of
the chunk list realises some return — the op stack lies in `{−1, 0, 1}`.
The original claim's tighter bound `{−1, 0}` fails: `op_stack = 1` is
observable at a `consume` return (see the counterexample above). -/
theorem opStack_bounds (isServer : Bool) (impl : Impl) (chunks : List (List Nat)) :
    (runChunks isServer impl freshState chunks).1.opStack = -1 ∨
    (runChunks isServer impl freshState chunks).1.opStack = 0 ∨
    (runChunks isServer impl freshState chunks).1.opStack = 1 :=
  (runChunks_opOk isServer impl chunks freshState
    ⟨Or.inl rfl, fun hw => by cases hw⟩).1

end UWS
